import Mathlib

/-!
Shallow embedding of `advanced_cracker.py` (class `PasswordCracker`) from the
MicrosoftWordPassCrack repository, together with proofs about its claims.

Modelling choices, stated once here:

* The external decryption capability (`msoffcrypto.OfficeFile.load_key` /
  `decrypt` plus the `os.path.getsize` check on the decrypted output) is an
  opaque, deterministic oracle `probe : String → ProbeResult` for a fixed
  document: for one candidate password it either succeeds (producing a
  decrypted output of some byte size), raises `InvalidKeyError` (wrong
  password), or raises some other exception with a message (a probe fault).
  Determinism for a fixed document is exactly what makes the four iterations
  of the encoding loop in `_try_decrypt` identical calls: the loop variable
  `encoding` is never passed to `load_key` or `decrypt`.
* Python exceptions that the code catches and converts to data are modelled
  as data (`ProbeResult.fault`, the error lists); the one exception path that
  escapes to the caller (`_validate_inputs` inside `__init__`) is modelled
  with `Except`.
* Wall-clock time (`time.time()`, the `elapsed` component of the returned
  triple, and whether a future finishes within its `timeout/len(futures)`
  share) is external to a pure embedding.  The per-future waiting in
  `_crack_multi` is therefore modelled by an oracle `outs : List (Option
  String)`: `none` means `future.result(...)` returned within its share,
  `some msg` means it raised (timeout or re-raised worker fault) with message
  `msg`, which line 204 appends to `stats.errors`.
* Thread interleaving in `_crack_multi` is modelled by a small-step machine:
  each chunk's worker is a `WorkerPhase`, and a `sched : List Nat` of worker
  indices picks which worker performs its next atomic step.  One worker step
  is either (a) the unlocked `shared_data['found']` check of line 110
  followed by the probe of line 113 (the probe outcome depends only on the
  candidate, so fusing check and probe loses no observable behaviour beyond
  the placement of the append-only error entries), (b) the locked match-write
  section of lines 114-117 — faithfully *without* re-checking the flag —
  or (c) the locked attempts increment of lines 120-122.
* `_load_passwords` is file I/O (the CandidateSource collaborator); `crack`
  takes the already-loaded candidate list and models the
  `if not passwords: raise ValueError(...)` check of lines 142-143 together
  with the surrounding `try/except` of lines 139-163.
-/

/-- Outcome of one `load_key`/`decrypt` attempt against the fixed document
with one candidate password: success with a decrypted output of `size` bytes,
`msoffcrypto.exceptions.InvalidKeyError`, or any other exception with message
`msg`. -/
inductive ProbeResult where
  | success (size : Nat)
  | invalidKey
  | fault (msg : String)
deriving DecidableEq, Repr

/-- The encoding list of line 85 of `advanced_cracker.py`.  The loop variable
ranges over it but is only ever used in the error message of line 97. -/
def encodings : List String := ["utf-8", "latin1", "ascii", "cp1252"]

/-- The error message format of line 97: `f"Error with {encoding}: {str(e)}"`. -/
def errMsg (enc m : String) : String := "Error with " ++ enc ++ ": " ++ m

/-- The encoding loop of `_try_decrypt` (lines 85-98), generalised over the
remaining encoding list.  Returns the boolean outcome together with the list
of messages appended to `stats.errors` during the loop, in order.  Note the
faithful quirk of lines 90-93: `return True` is reached only when
`self.verify_hash` is true *and* the decrypted output is non-empty; otherwise
the iteration falls through to the next encoding. -/
def tryDecryptIter (verify : Bool) (probe : String → ProbeResult) (pw : String) :
    List String → Bool × List String
  | [] => (false, [])
  | enc :: rest =>
    match probe pw with
    | ProbeResult.success size =>
        if verify = true ∧ 0 < size then (true, [])
        else tryDecryptIter verify probe pw rest
    | ProbeResult.invalidKey => tryDecryptIter verify probe pw rest
    | ProbeResult.fault m =>
        let r := tryDecryptIter verify probe pw rest
        (r.1, errMsg enc m :: r.2)

/-- `PasswordCracker._try_decrypt` (lines 82-101): the encoding loop run over
the full encoding list. -/
def tryDecrypt (verify : Bool) (probe : String → ProbeResult) (pw : String) :
    Bool × List String :=
  tryDecryptIter verify probe pw encodings

/-- A probe that performs the body of the encoding loop exactly once (used to
state that the four-iteration loop is equivalent to a single iteration). -/
def singleIteration (verify : Bool) (probe : String → ProbeResult) (pw : String) :
    Bool × List String :=
  tryDecryptIter verify probe pw ["utf-8"]

/-- Replace every probe fault by a plain wrong-password outcome.  Used to
state that `_try_decrypt` treats a faulting candidate exactly like a
non-matching one as far as the search result is concerned. -/
def maskFaults (probe : String → ProbeResult) : String → ProbeResult :=
  fun pw =>
    match probe pw with
    | ProbeResult.fault _ => ProbeResult.invalidKey
    | o => o

/-- The `shared_data` dictionary created at lines 177 and 184:
`{'found': False, 'password': None}`. -/
structure SharedData where
  found : Bool
  password : Option String
deriving DecidableEq, Repr

/-- The mutable parts of `CrackingStats` that the run itself writes:
`attempts` (line 121) and `errors` (lines 97, 126, 204).  The wall-clock
fields `start_time`/`end_time` and the derived fields `success` /
`found_password` (lines 154-156) are outside the pure model. -/
structure Stats where
  attempts : Nat
  errors : List String
deriving DecidableEq, Repr

/-- Fresh statistics, as rebuilt at line 136 (`self.stats = CrackingStats()`). -/
def stats0 : Stats := { attempts := 0, errors := [] }

/-- `PasswordCracker._worker` (lines 103-126) run to completion in isolation,
parameterised by the behaviour `try` of `self._try_decrypt` (boolean outcome
plus error messages appended).  Per candidate: the unlocked `found` check of
line 110 (break when set), the probe, then either the locked match write of
lines 114-117 followed by `break`, or the locked `attempts` increment of
lines 120-121.  The matching probe does *not* increment `attempts`. -/
def worker (t : String → Bool × List String) :
    List String → SharedData → Stats → SharedData × Stats
  | [], sd, st => (sd, st)
  | pw :: rest, sd, st =>
    if sd.found then (sd, st)
    else
      let r := t pw
      let st1 : Stats := { st with errors := st.errors ++ r.2 }
      if r.1 then ({ found := true, password := some pw }, st1)
      else worker t rest sd { st1 with attempts := st1.attempts + 1 }

/-- `PasswordCracker._crack_single` (lines 175-180): run the worker over the
whole list with a fresh `shared_data`, return `shared_data['password']`
together with the updated statistics (which, unlike `shared_data`, live in
`self.stats` and persist across the phases of a hybrid run). -/
def crackSingle (verify : Bool) (probe : String → ProbeResult)
    (pws : List String) (st : Stats) : Option String × Stats :=
  let r := worker (tryDecrypt verify probe) pws { found := false, password := none } st
  (r.1.password, r.2)

/-- The chunking of lines 188-189:
`[passwords[i:i + self.chunk_size] for i in range(0, len(passwords), self.chunk_size)]`.
Python raises `ValueError` for a zero `range` step, so only positive chunk
sizes are meaningful; the `0` case returns `[]` as an arbitrary value outside
every claim's scope. -/
def chunkListFuel : Nat → Nat → List String → List (List String)
  | _, _, [] => []
  | _, 0, _ :: _ => []
  | 0, _ + 1, _ :: _ => []
  | fuel + 1, n + 1, pw :: rest =>
      (pw :: rest.take n) :: chunkListFuel fuel (n + 1) (rest.drop n)

/-- The chunking, entered with enough fuel: every recursive call consumes at
least one list element, so `l.length` steps always suffice.  (The fuel makes
the recursion structural so that concrete runs reduce inside the kernel.) -/
def chunkList (n : Nat) (l : List String) : List (List String) :=
  chunkListFuel l.length n l

/-- One worker of `_crack_multi` between its atomic steps: `running l` is
about to perform the line-110 `found` check for the head of `l` (or to leave
the loop when `l` is empty); `locking pw rest ok` has completed the probe of
candidate `pw` with outcome `ok` and is about to enter the locked section
(lines 114-117 on a match, lines 120-121 otherwise); `done` has returned. -/
inductive WorkerPhase where
  | running (pws : List String)
  | locking (pw : String) (rest : List String) (ok : Bool)
  | done
deriving DecidableEq, Repr

/-- Global state of one `_crack_multi` run: the shared dictionary, the
statistics aggregate, and the phase of each chunk's worker. -/
structure MultiState where
  shared : SharedData
  stats : Stats
  workers : List WorkerPhase
deriving DecidableEq, Repr

/-- One atomic step of a single worker (see `WorkerPhase`).  The match write
of lines 115-116 faithfully does not re-check `shared_data['found']` inside
the lock. -/
def stepWorker (t : String → Bool × List String) (sh : SharedData) (st : Stats) :
    WorkerPhase → SharedData × Stats × WorkerPhase
  | WorkerPhase.running [] => (sh, st, WorkerPhase.done)
  | WorkerPhase.running (pw :: rest) =>
      if sh.found then (sh, st, WorkerPhase.done)
      else
        let r := t pw
        (sh, { st with errors := st.errors ++ r.2 }, WorkerPhase.locking pw rest r.1)
  | WorkerPhase.locking pw _ true =>
      ({ found := true, password := some pw }, st, WorkerPhase.done)
  | WorkerPhase.locking _ rest false =>
      (sh, { st with attempts := st.attempts + 1 }, WorkerPhase.running rest)
  | WorkerPhase.done => (sh, st, WorkerPhase.done)

/-- Step worker number `i` of the multi-threaded run (no-op for an index out
of range). -/
def stepMulti (t : String → Bool × List String) (s : MultiState) (i : Nat) : MultiState :=
  match s.workers.get? i with
  | none => s
  | some w =>
      let r := stepWorker t s.shared s.stats w
      { shared := r.1, stats := r.2.1, workers := s.workers.set i r.2.2 }

/-- Run the multi-threaded machine under an interleaving `sched` of worker
indices.  Any execution of the thread pool (bounded by `max_workers` or not)
is one such schedule. -/
def runMulti (t : String → Bool × List String) (s : MultiState) (sched : List Nat) :
    MultiState :=
  sched.foldl (stepMulti t) s

/-- Initial multi-threaded state for a list of chunks (lines 184-196): fresh
`shared_data`, the incoming statistics, one `running` worker per chunk. -/
def initMulti (chunks : List (List String)) (st : Stats) : MultiState :=
  { shared := { found := false, password := none },
    stats := st,
    workers := chunks.map WorkerPhase.running }

/-- The waiting loop of lines 199-204: for each future in submission order,
`none` means `future.result(...)` returned within its share of the budget,
`some msg` means it raised and line 204 appended `msg` to `stats.errors`. -/
def awaitFutures (st : Stats) (outs : List (Option String)) : Stats :=
  outs.foldl
    (fun st o =>
      match o with
      | none => st
      | some msg => { st with errors := st.errors ++ [msg] })
    st

/-- The per-future wait budget of line 201: `self.timeout/len(futures)`
(Python float division, modelled in `ℚ`). -/
def futureWaitShare (timeout n : Nat) : ℚ := (timeout : ℚ) / (n : ℚ)

/-- `PasswordCracker._crack_multi` (lines 182-206): chunk the candidates, run
the workers under some interleaving, process the per-future wait outcomes,
and return `shared_data['password']`. -/
def crackMulti (verify : Bool) (probe : String → ProbeResult) (cs : Nat)
    (sched : List Nat) (outs : List (Option String))
    (pws : List String) (st : Stats) : Option String × Stats :=
  let fin := runMulti (tryDecrypt verify probe) (initMulti (chunkList cs pws) st) sched
  (fin.shared.password, awaitFutures fin.stats outs)

/-- Python truthiness of an optional string, as used by `if result:` at
line 213 (and `bool(result)` / `result or ""` at lines 155-156): `None` and
the empty string are falsy. -/
def pyTruthy : Option String → Bool
  | none => false
  | some s => !s.isEmpty

/-- `PasswordCracker._crack_hybrid` (lines 208-218): sequential pass over
`passwords[:100]`, then — unless the result is truthy — a multi-threaded pass
over `passwords[100:]`.  `self.stats` persists across the two phases. -/
def crackHybrid (verify : Bool) (probe : String → ProbeResult) (cs : Nat)
    (sched : List Nat) (outs : List (Option String))
    (pws : List String) (st : Stats) : Option String × Stats :=
  let r := crackSingle verify probe (pws.take 100) st
  if pyTruthy r.1 then r
  else crackMulti verify probe cs sched outs (pws.drop 100) r.2

/-- The `CrackingMode` enumeration (lines 27-30). -/
inductive CrackingMode where
  | single
  | multi
  | hybrid
deriving DecidableEq, Repr

/-- `PasswordCracker.crack` (lines 128-163) after candidate loading: the
`if not passwords: raise ValueError(...)` of lines 142-143 is caught by the
`except` of lines 160-163, which appends the message and still returns a
complete pair; otherwise the mode dispatch of lines 147-152.  The `elapsed`
component of the Python triple is wall-clock time, external to the model. -/
def crack (verify : Bool) (probe : String → ProbeResult) (mode : CrackingMode)
    (cs : Nat) (sched : List Nat) (outs : List (Option String))
    (pws : List String) : Option String × Stats :=
  if pws.isEmpty then
    (none, { attempts := 0, errors := ["No valid passwords in wordlist"] })
  else
    match mode with
    | CrackingMode.single => crackSingle verify probe pws stats0
    | CrackingMode.multi => crackMulti verify probe cs sched outs pws stats0
    | CrackingMode.hybrid => crackHybrid verify probe cs sched outs pws stats0

/-- Observable state of one input file: whether `Path.exists()` holds and the
`stat().st_size` byte count. -/
structure FileState where
  present : Bool
  size : Nat
deriving DecidableEq, Repr

/-- `PasswordCracker._validate_inputs` (lines 63-72), called from `__init__`
(line 61): existence checks first, then emptiness checks, each raising to the
caller. -/
def validateInputs (doc wl : FileState) : Except String Unit :=
  if doc.present = false then Except.error "Document not found"
  else if wl.present = false then Except.error "Wordlist not found"
  else if doc.size = 0 then Except.error "Document is empty"
  else if wl.size = 0 then Except.error "Wordlist is empty"
  else Except.ok ()

/-- The caller's flow (`main`, lines 241-252): construct the cracker —
running `_validate_inputs` — and only then call `crack`.  A validation
failure escapes as `Except.error` before any run begins, so no
result/statistics pair exists in that case. -/
def runCracker (doc wl : FileState) (verify : Bool) (probe : String → ProbeResult)
    (mode : CrackingMode) (cs : Nat) (sched : List Nat) (outs : List (Option String))
    (pws : List String) : Except String (Option String × Stats) :=
  match validateInputs doc wl with
  | Except.error e => Except.error e
  | Except.ok _ => Except.ok (crack verify probe mode cs sched outs pws)

/-- Spec-side definition of the hybrid strategy, written from the spec's
words ("first runs sequential strategy over a fixed-size priority prefix (the
first 100 candidates, or all candidates if fewer); if no match, runs parallel
strategy over the remainder"), to be compared with the source-side
`crackHybrid`: the only difference is that the source tests Python
truthiness of the result where the spec says "if no match". -/
def hybridSpec (verify : Bool) (probe : String → ProbeResult) (cs : Nat)
    (sched : List Nat) (outs : List (Option String))
    (pws : List String) (st : Stats) : Option String × Stats :=
  let r := crackSingle verify probe (pws.take 100) st
  if r.1.isSome then r
  else crackMulti verify probe cs sched outs (pws.drop 100) r.2

/-- Candidates a worker phase has not yet finished with (the head of a
`locking` phase is still being handled). -/
def phasePws : WorkerPhase → List String
  | WorkerPhase.running l => l
  | WorkerPhase.locking pw rest _ => pw :: rest
  | WorkerPhase.done => []

/-- Number of `attempts` increments a worker phase will still perform,
assuming every remaining probe fails: one per remaining candidate, plus the
pending increment of a completed non-matching probe. -/
def phasePot : WorkerPhase → Nat
  | WorkerPhase.running l => l.length
  | WorkerPhase.locking _ rest false => rest.length + 1
  | WorkerPhase.locking _ rest true => rest.length
  | WorkerPhase.done => 0

/-- Inductive invariant of a multi-threaded run in which no probed candidate
matches: the shared flag and slot are untouched, every candidate still held
by a worker satisfies `Q`, no worker holds a successful probe outcome, the
attempts counter plus the outstanding increments is constant, and every
recorded error satisfies `E`. -/
def NMInv (Q : String → Prop) (E : String → Prop) (base : Nat) (s : MultiState) : Prop :=
  s.shared.found = false ∧ s.shared.password = none ∧
  (∀ w ∈ s.workers, ∀ pw ∈ phasePws w, Q pw) ∧
  (∀ w ∈ s.workers, ∀ pw rest, w ≠ WorkerPhase.locking pw rest true) ∧
  s.stats.attempts + (s.workers.map phasePot).sum = base ∧
  (∀ e ∈ s.stats.errors, E e)

/-- The schedule `sched` drives every worker of a multi-threaded run over
`pws` (chunked at size `cs`) to completion.  The worker phases do not depend
on the initial statistics, so the initial statistics are fixed to `stats0`. -/
@[reducible] def SchedCompletes (t : String → Bool × List String) (cs : Nat)
    (sched : List Nat) (pws : List String) : Prop :=
  ∀ w ∈ (runMulti t (initMulti (chunkList cs pws) stats0) sched).workers,
    w = WorkerPhase.done

/-- Invariant tying the two fields of `shared_data` together: the password
slot is filled exactly when the flag is set. -/
def SharedOk (sh : SharedData) : Prop := sh.password.isSome = sh.found

/-- Concrete probe for witnesses: only the password `"secret"` unlocks the
document, yielding a 5-byte decrypted output. -/
def probeSecret : String → ProbeResult := fun pw =>
  if pw = "secret" then ProbeResult.success 5 else ProbeResult.invalidKey

/-- Concrete probe for the race counterexample: both `"p1"` and `"p2"`
unlock the document. -/
def probeBoth : String → ProbeResult := fun pw =>
  if pw = "p1" ∨ pw = "p2" then ProbeResult.success 5 else ProbeResult.invalidKey

/-- Concrete probe for witnesses: every attempt raises a non-key exception
with message `"boom"`. -/
def probeFaulty : String → ProbeResult := fun _ => ProbeResult.fault "boom"

/-- Concrete probe for witnesses: no candidate unlocks the document. -/
def probeNever : String → ProbeResult := fun _ => ProbeResult.invalidKey

/-- Concrete probe for the verification-toggle analysis: every candidate
decrypts successfully to a 5-byte output. -/
def probeAlwaysSucceeds : String → ProbeResult := fun _ => ProbeResult.success 5

/-! ## Generic helper lemmas -/

/-- Summing a natural-valued measure over a list with one position replaced. -/
theorem sum_map_set {α : Type} (f : α → Nat) (l : List α) (i : Nat) (w b : α)
    (h : l.get? i = some w) :
    ((l.set i b).map f).sum + f w = (l.map f).sum + f b := by
  induction l generalizing i with
  | nil => simp at h
  | cons a t ih =>
    cases i with
    | zero =>
      simp only [List.get?] at h
      cases h
      simp only [List.set, List.map_cons, List.sum_cons]
      omega
    | succ n =>
      simp only [List.get?] at h
      have h2 := ih n h
      simp only [List.set, List.map_cons, List.sum_cons]
      omega

/-! ## Lemmas about the sequential worker -/

/-- A worker run over candidates that all fail to match leaves the shared
data untouched, adds one attempt per candidate, and appends each candidate's
probe errors in order. -/
theorem worker_noMatch (t : String → Bool × List String) (l : List String)
    (sd : SharedData) (st : Stats) (hf : sd.found = false)
    (hno : ∀ pw ∈ l, (t pw).1 = false) :
    worker t l sd st =
      (sd, { attempts := st.attempts + l.length,
             errors := st.errors ++ (l.map (fun pw => (t pw).2)).flatten }) := by
  induction l generalizing st with
  | nil => simp [worker]
  | cons pw rest ih =>
    have hpw : (t pw).1 = false := hno pw (by simp)
    rw [worker]
    simp only [hf, Bool.false_eq_true, if_false, hpw]
    rw [ih _ (fun q hq => hno q (by simp [hq]))]
    simp [List.append_assoc]
    omega

/-- A worker run whose list is a block of non-matching candidates followed by
a matching one sets the shared flag and slot to the match, counts only the
preceding non-matching probes, and never touches the candidates after the
match. -/
theorem worker_first_match (t : String → Bool × List String)
    (pre : List String) (p : String) (post : List String)
    (sd : SharedData) (st : Stats) (hf : sd.found = false)
    (hpre : ∀ q ∈ pre, (t q).1 = false) (hp : (t p).1 = true) :
    worker t (pre ++ p :: post) sd st =
      ({ found := true, password := some p },
       { attempts := st.attempts + pre.length,
         errors := st.errors ++ (pre.map (fun q => (t q).2)).flatten ++ (t p).2 }) := by
  induction pre generalizing st with
  | nil =>
    rw [List.nil_append, worker]
    simp [hf, hp]
  | cons q rest ih =>
    have hq : (t q).1 = false := hpre q (by simp)
    rw [List.cons_append, worker]
    simp only [hf, Bool.false_eq_true, if_false, hq]
    rw [ih _ (fun q2 hq2 => hpre q2 (by simp [hq2]))]
    simp [List.append_assoc]
    omega

/-- The password reported by a lone worker started on a cleared shared state
is a member of its candidate list, and its probe matched. -/
theorem worker_password_mem (t : String → Bool × List String) (l : List String)
    (st : Stats) (p : String)
    (h : (worker t l { found := false, password := none } st).1.password = some p) :
    p ∈ l ∧ (t p).1 = true := by
  induction l generalizing st with
  | nil => simp [worker] at h
  | cons pw rest ih =>
    rw [worker] at h
    simp only [Bool.false_eq_true, if_false] at h
    by_cases hpw : (t pw).1 = true
    · simp [hpw] at h
      subst h
      exact ⟨by simp, hpw⟩
    · simp [hpw] at h
      obtain ⟨hmem, hmatch⟩ := ih _ h
      exact ⟨by simp [hmem], hmatch⟩

/-- A lone worker started on a cleared shared state over a list containing a
matching candidate reports some password. -/
theorem worker_finds (t : String → Bool × List String) (l : List String) (st : Stats)
    (h : ∃ p ∈ l, (t p).1 = true) :
    ((worker t l { found := false, password := none } st).1.password).isSome = true := by
  induction l generalizing st with
  | nil => simp at h
  | cons pw rest ih =>
    rw [worker]
    simp only [Bool.false_eq_true, if_false]
    by_cases hpw : (t pw).1 = true
    · simp [hpw]
    · simp [hpw]
      obtain ⟨p, hp, hmatch⟩ := h
      rcases List.mem_cons.mp hp with he | hp2
      · exact absurd (he ▸ hmatch) hpw
      · exact ih _ ⟨p, hp2, hmatch⟩

/-- The shared data produced by a worker depends only on the boolean outcome
of each probe, not on the error messages nor on the incoming statistics. -/
theorem worker_result_congr (t t2 : String → Bool × List String)
    (hb : ∀ pw, (t pw).1 = (t2 pw).1) (l : List String)
    (sd : SharedData) (st st2 : Stats) :
    (worker t l sd st).1 = (worker t2 l sd st2).1 := by
  induction l generalizing st st2 with
  | nil => simp [worker]
  | cons pw rest ih =>
    rw [worker, worker]
    by_cases hf : sd.found
    · simp [hf]
    · simp only [hf, if_false]
      rw [← hb pw]
      by_cases hpw : (t pw).1 = true
      · simp [hpw]
      · simp only [Bool.not_eq_true] at hpw
        simp [hpw]
        exact ih _ _

/-! ## Lemmas about chunking -/

/-- With enough fuel, concatenating the chunks of a positive chunk size
reproduces the original list. -/
theorem chunkListFuel_flatten (n : Nat) : ∀ (fuel : Nat) (l : List String),
    l.length ≤ fuel → (chunkListFuel fuel (n + 1) l).flatten = l := by
  intro fuel
  induction fuel with
  | zero =>
    intro l hl
    cases l with
    | nil => rfl
    | cons pw rest => simp at hl
  | succ f ih =>
    intro l hl
    cases l with
    | nil => rfl
    | cons pw rest =>
      rw [chunkListFuel, List.flatten_cons, ih (rest.drop n) ?_]
      · simp [List.take_append_drop]
      · simp only [List.length_cons] at hl
        simp only [List.length_drop]
        omega

/-- Concatenating the chunks of a positive chunk size reproduces the
original list. -/
theorem chunkList_flatten (n : Nat) (l : List String) :
    (chunkList (n + 1) l).flatten = l :=
  chunkListFuel_flatten n l.length l (Nat.le_refl _)

/-- A positive chunk size over a non-empty list yields at least one chunk. -/
theorem chunkList_length_pos (n : Nat) (pw : String) (rest : List String) :
    0 < (chunkList (n + 1) (pw :: rest)).length := by
  rw [chunkList]
  simp only [List.length_cons]
  rw [chunkListFuel]
  simp

/-! ## Lemmas about the multi-threaded step machine -/

/-- The shared data and the worker phases of a step depend only on the
boolean outcome of each probe, not on the error messages nor on the
statistics. -/
theorem stepMulti_congr (t t2 : String → Bool × List String)
    (hb : ∀ pw, (t pw).1 = (t2 pw).1) (s s2 : MultiState)
    (hsh : s.shared = s2.shared) (hws : s.workers = s2.workers) (i : Nat) :
    (stepMulti t s i).shared = (stepMulti t2 s2 i).shared ∧
    (stepMulti t s i).workers = (stepMulti t2 s2 i).workers := by
  obtain ⟨sh, st, ws⟩ := s
  obtain ⟨sh2, st2, ws2⟩ := s2
  simp only at hsh hws
  subst hsh
  subst hws
  unfold stepMulti
  cases hget : ws.get? i with
  | none => simp
  | some w =>
    cases w with
    | running pws =>
      cases pws with
      | nil => simp [stepWorker]
      | cons pw rest =>
        by_cases hf : sh.found
        · simp [stepWorker, hf]
        · simp [stepWorker, hf, hb pw]
    | locking pw rest ok => cases ok <;> simp [stepWorker]
    | done => simp [stepWorker]

/-- `runMulti` version of `stepMulti_congr`. -/
theorem runMulti_congr (t t2 : String → Bool × List String)
    (hb : ∀ pw, (t pw).1 = (t2 pw).1) (sched : List Nat) :
    ∀ (s s2 : MultiState), s.shared = s2.shared → s.workers = s2.workers →
    (runMulti t s sched).shared = (runMulti t2 s2 sched).shared ∧
    (runMulti t s sched).workers = (runMulti t2 s2 sched).workers := by
  induction sched with
  | nil => intro s s2 hsh hws; exact ⟨hsh, hws⟩
  | cons i rest ih =>
    intro s s2 hsh hws
    have hstep := stepMulti_congr t t2 hb s s2 hsh hws i
    rw [runMulti, List.foldl_cons, runMulti, List.foldl_cons]
    exact ih _ _ hstep.1 hstep.2

/-- Once the shared flag is set, no step clears it. -/
theorem stepMulti_found_mono (t : String → Bool × List String) (s : MultiState)
    (i : Nat) (h : s.shared.found = true) : (stepMulti t s i).shared.found = true := by
  unfold stepMulti
  cases hget : s.workers.get? i with
  | none => exact h
  | some w =>
    cases w with
    | running pws =>
      cases pws with
      | nil => exact h
      | cons pw rest => simp [stepWorker, h]
    | locking pw rest ok => cases ok <;> simp [stepWorker, h]
    | done => exact h

/-- Once the shared flag is set, it stays set for the rest of the run. -/
theorem runMulti_found_mono (t : String → Bool × List String) (sched : List Nat) :
    ∀ (s : MultiState), s.shared.found = true →
    (runMulti t s sched).shared.found = true := by
  induction sched with
  | nil => intro s h; exact h
  | cons i rest ih =>
    intro s h
    rw [runMulti, List.foldl_cons]
    exact ih _ (stepMulti_found_mono t s i h)

/-- Each step preserves the link between the password slot and the flag. -/
theorem stepMulti_sharedOk (t : String → Bool × List String) (s : MultiState)
    (i : Nat) (h : SharedOk s.shared) : SharedOk (stepMulti t s i).shared := by
  unfold stepMulti
  cases hget : s.workers.get? i with
  | none => exact h
  | some w =>
    cases w with
    | running pws =>
      cases pws with
      | nil => exact h
      | cons pw rest =>
        by_cases hf : s.shared.found
        · simpa [stepWorker, hf] using h
        · simpa [stepWorker, hf] using h
    | locking pw rest ok =>
      cases ok
      · exact h
      · simp [stepWorker, SharedOk]
    | done => exact h

/-- The whole run preserves the link between the password slot and the flag. -/
theorem runMulti_sharedOk (t : String → Bool × List String) (sched : List Nat) :
    ∀ (s : MultiState), SharedOk s.shared → SharedOk (runMulti t s sched).shared := by
  induction sched with
  | nil => intro s h; exact h
  | cons i rest ih =>
    intro s h
    rw [runMulti, List.foldl_cons]
    exact ih _ (stepMulti_sharedOk t s i h)

/-! ## Lemmas about the future-waiting loop -/

/-- The waiting loop appends exactly the raised messages, in order, and
nothing else. -/
theorem awaitFutures_errors (outs : List (Option String)) :
    ∀ (st : Stats), (awaitFutures st outs).errors = st.errors ++ outs.filterMap id := by
  induction outs with
  | nil => intro st; simp [awaitFutures]
  | cons o rest ih =>
    intro st
    cases o with
    | none => rw [awaitFutures, List.foldl_cons]; simpa [awaitFutures] using ih st
    | some msg =>
      rw [awaitFutures, List.foldl_cons]
      have := ih { st with errors := st.errors ++ [msg] }
      rw [awaitFutures] at this
      simp only [this]
      simp [List.filterMap_cons]

/-- The waiting loop never touches the attempts counter. -/
theorem awaitFutures_attempts (outs : List (Option String)) :
    ∀ (st : Stats), (awaitFutures st outs).attempts = st.attempts := by
  induction outs with
  | nil => intro st; simp [awaitFutures]
  | cons o rest ih =>
    intro st
    cases o with
    | none => rw [awaitFutures, List.foldl_cons]; simpa [awaitFutures] using ih st
    | some msg =>
      rw [awaitFutures, List.foldl_cons]
      simpa [awaitFutures] using ih { st with errors := st.errors ++ [msg] }

/-! ## The no-match invariant -/

/-- Replacing worker `i` while keeping the shared data cleared preserves the
no-match invariant, provided the new phase holds only `Q`-candidates, is not
a successful lock, keeps the attempts accounting balanced, and records only
`E`-errors. -/
theorem NMInv_set (Q E : String → Prop) (base : Nat) (s : MultiState) (i : Nat)
    (w w2 : WorkerPhase) (hget : s.workers.get? i = some w)
    (hinv : NMInv Q E base s) (sh : SharedData) (st : Stats)
    (hfound : sh.found = false) (hpass : sh.password = none)
    (hQ2 : ∀ pw ∈ phasePws w2, Q pw)
    (hnt2 : ∀ pw rest, w2 ≠ WorkerPhase.locking pw rest true)
    (hsum2 : st.attempts + phasePot w2 = s.stats.attempts + phasePot w)
    (hE2 : ∀ e ∈ st.errors, E e) :
    NMInv Q E base ⟨sh, st, s.workers.set i w2⟩ := by
  obtain ⟨h1, h2, h3, h4, h5, h6⟩ := hinv
  refine ⟨hfound, hpass, ?_, ?_, ?_, hE2⟩
  · intro wx hwx pw hpw
    rcases List.mem_or_eq_of_mem_set hwx with hx | hx
    · exact h3 wx hx pw hpw
    · subst hx; exact hQ2 pw hpw
  · intro wx hwx pw rest
    rcases List.mem_or_eq_of_mem_set hwx with hx | hx
    · exact h4 wx hx pw rest
    · subst hx; exact hnt2 pw rest
  · have hs := sum_map_set phasePot s.workers i w w2 hget
    simp only
    omega

/-- One step of the machine preserves the no-match invariant, provided every
`Q`-candidate probes to a non-match with only `E`-errors. -/
theorem NMInv_step (t : String → Bool × List String) (Q E : String → Prop) (base : Nat)
    (ht : ∀ pw, Q pw → (t pw).1 = false ∧ ∀ e ∈ (t pw).2, E e)
    (s : MultiState) (i : Nat) (h : NMInv Q E base s) :
    NMInv Q E base (stepMulti t s i) := by
  have hfound := h.1
  have hpass := h.2.1
  have hE := h.2.2.2.2.2
  unfold stepMulti
  cases hget : s.workers.get? i with
  | none => exact h
  | some w =>
    have hwmem : w ∈ s.workers := List.get?_mem hget
    cases w with
    | running pws =>
      cases pws with
      | nil =>
        simp only [stepWorker]
        refine NMInv_set Q E base s i _ _ hget h _ _ hfound hpass ?_ ?_ ?_ hE
        · intro pw hpw; simp [phasePws] at hpw
        · intro pw rest; simp
        · simp [phasePot]
      | cons pw rest =>
        have hQpw : Q pw := h.2.2.1 _ hwmem pw (by simp [phasePws])
        have hfalse : (t pw).1 = false := (ht pw hQpw).1
        simp only [stepWorker, hfound, Bool.false_eq_true, if_false, hfalse]
        refine NMInv_set Q E base s i _ _ hget h _ _ hfound hpass ?_ ?_ ?_ ?_
        · intro q hq
          exact h.2.2.1 _ hwmem q hq
        · intro q qrest hcontra
          simp at hcontra
        · simp [phasePot]
        · intro e he
          rcases List.mem_append.mp he with he | he
          · exact hE e he
          · exact (ht pw hQpw).2 e he
    | locking pw rest ok =>
      cases ok with
      | true => exact absurd rfl (h.2.2.2.1 _ hwmem pw rest)
      | false =>
        simp only [stepWorker]
        refine NMInv_set Q E base s i _ _ hget h _ _ hfound hpass ?_ ?_ ?_ hE
        · intro q hq
          exact h.2.2.1 _ hwmem q (by simp [phasePws] at hq ⊢; right; exact hq)
        · intro q qrest; simp
        · simp only [phasePot]; omega
    | done =>
      simp only [stepWorker]
      refine NMInv_set Q E base s i _ _ hget h _ _ hfound hpass ?_ ?_ ?_ hE
      · intro pw hpw; simp [phasePws] at hpw
      · intro pw rest; simp
      · simp [phasePot]

/-- A whole scheduled run preserves the no-match invariant. -/
theorem NMInv_run (t : String → Bool × List String) (Q E : String → Prop) (base : Nat)
    (ht : ∀ pw, Q pw → (t pw).1 = false ∧ ∀ e ∈ (t pw).2, E e) (sched : List Nat) :
    ∀ (s : MultiState), NMInv Q E base s → NMInv Q E base (runMulti t s sched) := by
  induction sched with
  | nil => intro s h; exact h
  | cons i rest ih =>
    intro s h
    rw [runMulti, List.foldl_cons]
    exact ih _ (NMInv_step t Q E base ht s i h)

/-- Reading the invariant back at a completed state: no password, the exact
attempts total, and only `E`-errors. -/
theorem NMInv_final (Q E : String → Prop) (base : Nat) (s : MultiState)
    (h : NMInv Q E base s) (hdone : ∀ w ∈ s.workers, w = WorkerPhase.done) :
    s.shared.password = none ∧ s.stats.attempts = base ∧
    (∀ e ∈ s.stats.errors, E e) := by
  obtain ⟨h1, h2, h3, h4, h5, h6⟩ := h
  refine ⟨h2, ?_, h6⟩
  have hz : (s.workers.map phasePot).sum = 0 := by
    apply List.sum_eq_zero
    intro x hx
    obtain ⟨w, hw, rfl⟩ := List.mem_map.mp hx
    rw [hdone w hw]
    rfl
  omega

/-! ## Lemmas about the probe wrapper -/

/-- The boolean outcome of the encoding loop is unchanged when probe faults
are replaced by wrong-password outcomes: both merely continue the loop. -/
theorem tryDecryptIter_maskFaults_bool (verify : Bool) (probe : String → ProbeResult)
    (pw : String) : ∀ (encs : List String),
    (tryDecryptIter verify probe pw encs).1 =
      (tryDecryptIter verify (maskFaults probe) pw encs).1 := by
  intro encs
  induction encs with
  | nil => rfl
  | cons enc rest ih =>
    rw [tryDecryptIter, tryDecryptIter]
    cases hp : probe pw with
    | success size =>
      by_cases hv : verify = true ∧ 0 < size
      · simp [maskFaults, hp, hv]
      · simp [maskFaults, hp, hv, ih]
    | invalidKey => simp [maskFaults, hp, ih]
    | fault m => simp [maskFaults, hp, ih]

/-- `tryDecrypt` version of `tryDecryptIter_maskFaults_bool`. -/
theorem tryDecrypt_maskFaults_bool (verify : Bool) (probe : String → ProbeResult)
    (pw : String) :
    (tryDecrypt verify probe pw).1 = (tryDecrypt verify (maskFaults probe) pw).1 :=
  tryDecryptIter_maskFaults_bool verify probe pw encodings

/-- On a faulting candidate `_try_decrypt` returns `False` and appends one
error entry per encoding iteration, all carrying the same probe message. -/
theorem tryDecrypt_fault (verify : Bool) (probe : String → ProbeResult)
    (pw m : String) (h : probe pw = ProbeResult.fault m) :
    (tryDecrypt verify probe pw).1 = false ∧
    (tryDecrypt verify probe pw).2 = encodings.map (fun enc => errMsg enc m) := by
  constructor <;> simp [tryDecrypt, encodings, tryDecryptIter, h]

/-- The search result of `crack` is unchanged when probe faults are replaced
by wrong-password outcomes: a faulting candidate is treated as non-matching
and the run continues past it in every mode. -/
theorem crack_result_mask (verify : Bool) (probe : String → ProbeResult)
    (mode : CrackingMode) (cs : Nat) (sched : List Nat) (outs : List (Option String))
    (pws : List String) :
    (crack verify probe mode cs sched outs pws).1 =
      (crack verify (maskFaults probe) mode cs sched outs pws).1 := by
  have hb : ∀ q, (tryDecrypt verify probe q).1 =
      (tryDecrypt verify (maskFaults probe) q).1 :=
    fun q => tryDecrypt_maskFaults_bool verify probe q
  by_cases hemp : pws.isEmpty
  · simp [crack, hemp]
  · cases mode with
    | single =>
      simp only [crack, hemp, Bool.false_eq_true, if_false]
      show (worker (tryDecrypt verify probe) pws _ stats0).1.password =
        (worker (tryDecrypt verify (maskFaults probe)) pws _ stats0).1.password
      rw [worker_result_congr _ _ hb pws _ stats0 stats0]
    | multi =>
      simp only [crack, hemp, Bool.false_eq_true, if_false]
      show (runMulti (tryDecrypt verify probe)
          (initMulti (chunkList cs pws) stats0) sched).shared.password = _
      rw [(runMulti_congr _ _ hb sched (initMulti (chunkList cs pws) stats0)
        (initMulti (chunkList cs pws) stats0) rfl rfl).1]
      rfl
    | hybrid =>
      simp only [crack, hemp, Bool.false_eq_true, if_false]
      have hr : (crackSingle verify probe (pws.take 100) stats0).1 =
          (crackSingle verify (maskFaults probe) (pws.take 100) stats0).1 := by
        show (worker (tryDecrypt verify probe) (pws.take 100)
            { found := false, password := none } stats0).1.password =
          (worker (tryDecrypt verify (maskFaults probe)) (pws.take 100)
            { found := false, password := none } stats0).1.password
        rw [worker_result_congr _ _ hb (pws.take 100) _ stats0 stats0]
      show (if pyTruthy (crackSingle verify probe (pws.take 100) stats0).1 = true
            then crackSingle verify probe (pws.take 100) stats0
            else crackMulti verify probe cs sched outs (pws.drop 100)
              (crackSingle verify probe (pws.take 100) stats0).2).1
          = (if pyTruthy (crackSingle verify (maskFaults probe) (pws.take 100) stats0).1
                = true
            then crackSingle verify (maskFaults probe) (pws.take 100) stats0
            else crackMulti verify (maskFaults probe) cs sched outs (pws.drop 100)
              (crackSingle verify (maskFaults probe) (pws.take 100) stats0).2).1
      rw [← hr]
      by_cases htr : pyTruthy (crackSingle verify probe (pws.take 100) stats0).1 = true
      · simp only [htr, if_true]
        exact hr
      · simp only [Bool.not_eq_true] at htr
        simp only [htr, Bool.false_eq_true, if_false]
        show (runMulti (tryDecrypt verify probe)
            (initMulti (chunkList cs (pws.drop 100))
              (crackSingle verify probe (pws.take 100) stats0).2) sched).shared.password = _
        rw [(runMulti_congr _ _ hb sched
          (initMulti (chunkList cs (pws.drop 100))
            (crackSingle verify probe (pws.take 100) stats0).2)
          (initMulti (chunkList cs (pws.drop 100))
            (crackSingle verify (maskFaults probe) (pws.take 100) stats0).2) rfl rfl).1]
        rfl

/-! ## The multi-threaded no-match run -/

/-- A multi-threaded run over candidates none of which match, under a
schedule that drives every worker to completion and with every future
finishing in time, returns no password, counts every candidate exactly once,
and records only per-candidate probe errors beyond the incoming ones. -/
theorem crackMulti_noMatch (verify : Bool) (probe : String → ProbeResult) (cs : Nat)
    (sched : List Nat) (outs : List (Option String)) (pws : List String) (st : Stats)
    (hno : ∀ pw ∈ pws, (tryDecrypt verify probe pw).1 = false)
    (houts : ∀ o ∈ outs, o = none)
    (hdone : SchedCompletes (tryDecrypt verify probe) (cs + 1) sched pws) :
    (crackMulti verify probe (cs + 1) sched outs pws st).1 = none ∧
    (crackMulti verify probe (cs + 1) sched outs pws st).2.attempts
      = st.attempts + pws.length ∧
    (∀ e ∈ (crackMulti verify probe (cs + 1) sched outs pws st).2.errors,
      e ∈ st.errors ∨ ∃ pw ∈ pws, e ∈ (tryDecrypt verify probe pw).2) := by
  have hT : ∀ pw, pw ∈ pws →
      (tryDecrypt verify probe pw).1 = false ∧
      ∀ e ∈ (tryDecrypt verify probe pw).2,
        e ∈ st.errors ∨ ∃ q ∈ pws, e ∈ (tryDecrypt verify probe q).2 :=
    fun pw hpw => ⟨hno pw hpw, fun e he => Or.inr ⟨pw, hpw, he⟩⟩
  have hinit : NMInv (fun pw => pw ∈ pws)
      (fun e => e ∈ st.errors ∨ ∃ q ∈ pws, e ∈ (tryDecrypt verify probe q).2)
      (st.attempts + pws.length)
      (initMulti (chunkList (cs + 1) pws) st) := by
    refine ⟨rfl, rfl, ?_, ?_, ?_, fun e he => Or.inl he⟩
    · intro w hw pw hpw
      obtain ⟨c, hc, rfl⟩ := List.mem_map.mp hw
      rw [← chunkList_flatten cs pws]
      exact List.mem_flatten.mpr ⟨c, hc, hpw⟩
    · intro w hw pw rest
      obtain ⟨c, hc, rfl⟩ := List.mem_map.mp hw
      simp
    · show st.attempts +
        (((chunkList (cs + 1) pws).map WorkerPhase.running).map phasePot).sum
        = st.attempts + pws.length
      rw [List.map_map]
      have hcomp : phasePot ∘ WorkerPhase.running = List.length := rfl
      rw [hcomp, ← List.length_flatten, chunkList_flatten]
  have hfin := NMInv_run (tryDecrypt verify probe) _ _ _ hT sched _ hinit
  have hws := (runMulti_congr (tryDecrypt verify probe) (tryDecrypt verify probe)
      (fun pw => rfl) sched (initMulti (chunkList (cs + 1) pws) st)
      (initMulti (chunkList (cs + 1) pws) stats0) rfl rfl).2
  have hdone2 : ∀ w ∈ (runMulti (tryDecrypt verify probe)
      (initMulti (chunkList (cs + 1) pws) st) sched).workers,
      w = WorkerPhase.done := by
    intro w hw
    exact hdone w (hws ▸ hw)
  obtain ⟨hp, ha, he⟩ := NMInv_final _ _ _ _ hfin hdone2
  refine ⟨hp, ?_, ?_⟩
  · show (awaitFutures _ outs).attempts = _
    rw [awaitFutures_attempts]
    exact ha
  · intro e hee
    have h1 : (crackMulti verify probe (cs + 1) sched outs pws st).2.errors
        = (runMulti (tryDecrypt verify probe)
            (initMulti (chunkList (cs + 1) pws) st) sched).stats.errors
          ++ outs.filterMap id :=
      awaitFutures_errors outs _
    have hnil : List.filterMap id outs = [] := List.filterMap_eq_nil_iff.mpr houts
    rw [h1, hnil, List.append_nil] at hee
    exact he e hee

/-! ## Claim theorems -/

/-- C1, counterexample: at the spec's own example — candidates
`["aaa", "bbb", "secret", "ccc"]`, probe matching only `"secret"` (so the
1-indexed match position is `k = 3`), sequential mode — `crack` returns
`"secret"` but `stats.attempts` is `2`, not `k + 1 = 4` (nor `k = 3`): the
worker increments the counter only after a *non-matching* probe and breaks
out of the loop on a match before reaching the increment. -/
theorem seq_attempts_k_plus_one_ce :
    (crack true probeSecret CrackingMode.single 1000 [] []
      ["aaa", "bbb", "secret", "ccc"]).1 = some "secret" ∧
    (crack true probeSecret CrackingMode.single 1000 [] []
      ["aaa", "bbb", "secret", "ccc"]).2.attempts = 2 ∧
    ¬ (crack true probeSecret CrackingMode.single 1000 [] []
      ["aaa", "bbb", "secret", "ccc"]).2.attempts = 3 + 1 := by
  decide

/-- C1, amended: for every non-empty candidate sequence containing the
correct password at 1-indexed position `k = pre.length + 1`, with no earlier
matching candidate, sequential-mode `crack` returns exactly that password and
`stats.attempts = k - 1 = pre.length`, the count of non-matching probes
before the match; the matching probe itself is not counted. -/
theorem seq_first_match (verify : Bool) (probe : String → ProbeResult)
    (cs : Nat) (sched : List Nat) (outs : List (Option String))
    (pre post : List String) (p : String)
    (hpre : ∀ q ∈ pre, (tryDecrypt verify probe q).1 = false)
    (hp : (tryDecrypt verify probe p).1 = true) :
    (crack verify probe CrackingMode.single cs sched outs (pre ++ p :: post)).1
      = some p ∧
    (crack verify probe CrackingMode.single cs sched outs
      (pre ++ p :: post)).2.attempts = pre.length := by
  have hemp : (pre ++ p :: post).isEmpty = false := by
    cases pre <;> simp [List.isEmpty]
  simp only [crack, hemp, Bool.false_eq_true, if_false]
  have hw := worker_first_match (tryDecrypt verify probe) pre p post
    { found := false, password := none } stats0 rfl hpre hp
  have h1 : crackSingle verify probe (pre ++ p :: post) stats0 =
      (some p, { attempts := pre.length,
                 errors := (pre.map (fun q => (tryDecrypt verify probe q).2)).flatten
                   ++ (tryDecrypt verify probe p).2 }) := by
    simp only [crackSingle]
    rw [hw]
    simp [stats0]
  rw [h1]
  exact ⟨rfl, rfl⟩

/-- Witness for `seq_first_match` at the spec's example. -/
theorem seq_first_match_witness :
    (crack true probeSecret CrackingMode.single 7 [] []
      (["aaa", "bbb"] ++ "secret" :: ["ccc"])).1 = some "secret" ∧
    (crack true probeSecret CrackingMode.single 7 [] []
      (["aaa", "bbb"] ++ "secret" :: ["ccc"])).2.attempts = ["aaa", "bbb"].length :=
  seq_first_match true probeSecret 7 [] [] ["aaa", "bbb"] ["ccc"] "secret"
    (by decide) (by decide)

/-- C2, counterexample: two workers, chunks `["p1"]` and `["p2"]`, both
candidates matching.  Under the interleaving `[0, 1, 0]` worker 0 has
committed the locked match write (`found = true`, `foundPassword = "p1"`)
while worker 1 — whose probe already succeeded — still waits at the locked
section.  One more step of worker 1 (`[0, 1, 0, 1]`) *performs the write
although the flag is already true*, overwriting the password with `"p2"`:
the match-write section of lines 114-117 never re-checks the flag, so
`foundPassword` is written twice. -/
theorem second_match_write_performed_ce :
    (runMulti (tryDecrypt true probeBoth) (initMulti (chunkList 1 ["p1", "p2"]) stats0)
      [0, 1, 0]).shared = { found := true, password := some "p1" } ∧
    (runMulti (tryDecrypt true probeBoth) (initMulti (chunkList 1 ["p1", "p2"]) stats0)
      [0, 1, 0, 1]).shared = { found := true, password := some "p2" } := by
  decide

/-- C2, amended: within one run the shared `found` flag transitions from
false to true at most once and never reverts — once it is true after some
prefix of the interleaving, it is true after every extension.  However, a
second worker that completes a matching probe before observing the flag does
perform the locked write again (see the counterexample), so `foundPassword`
may be overwritten; only the flag itself is write-once in effect. -/
theorem found_monotone_run (t : String → Bool × List String) (s : MultiState)
    (s1 s2 : List Nat) (h : (runMulti t s s1).shared.found = true) :
    (runMulti t s (s1 ++ s2)).shared.found = true := by
  rw [runMulti, List.foldl_append]
  exact runMulti_found_mono t s2 _ h

/-- Witness for `found_monotone_run` on the race scenario. -/
theorem found_monotone_run_witness :
    (runMulti (tryDecrypt true probeBoth) (initMulti (chunkList 1 ["p1", "p2"]) stats0)
      ([0, 1, 0] ++ [1])).shared.found = true :=
  found_monotone_run (tryDecrypt true probeBoth)
    (initMulti (chunkList 1 ["p1", "p2"]) stats0) [0, 1, 0] [1] (by decide)

/-- C4: for every positive chunk size, the chunking used by the parallel
strategy is a lossless, non-overlapping, gap-free partition: concatenating
the chunks in assignment order reproduces the candidate sequence exactly. -/
theorem chunks_partition (cs : Nat) (hcs : 0 < cs) (pws : List String) :
    (chunkList cs pws).flatten = pws := by
  cases cs with
  | zero => omega
  | succ n => exact chunkList_flatten n pws

/-- Witness for `chunks_partition`. -/
theorem chunks_partition_witness :
    (chunkList 2 ["a", "b", "c", "d", "e"]).flatten = ["a", "b", "c", "d", "e"] :=
  chunks_partition 2 (by decide) ["a", "b", "c", "d", "e"]

/-- C6: the code contradicts the intended verification-toggle semantics.
With verification enabled a successfully decrypting candidate is reported as
a match, but with verification *disabled* the same candidate is reported as
a no-match — `return True` at line 93 sits under `if self.verify_hash:` at
line 90, so with `verify_hash = False` the loop falls through all four
iterations and line 98 returns `False`.  End to end, `--no-verify` makes
`crack` unable to find any password. -/
theorem verify_toggle_loses_match :
    (tryDecrypt true probeAlwaysSucceeds "secret").1 = true ∧
    (tryDecrypt false probeAlwaysSucceeds "secret").1 = false ∧
    (crack true probeAlwaysSucceeds CrackingMode.single 1000 [] [] ["secret"]).1
      = some "secret" ∧
    (crack false probeAlwaysSucceeds CrackingMode.single 1000 [] [] ["secret"]).1
      = none := by
  decide

/-- C9: a missing or empty document, or a missing or empty wordlist, makes
the constructor-time validation raise to the caller before any run begins:
`runCracker` produces an `Except.error` and no result/statistics pair. -/
theorem setup_validation_fatal (doc wl : FileState) (verify : Bool)
    (probe : String → ProbeResult) (mode : CrackingMode) (cs : Nat)
    (sched : List Nat) (outs : List (Option String)) (pws : List String)
    (h : doc.present = false ∨ doc.size = 0 ∨ wl.present = false ∨ wl.size = 0) :
    ∃ e, runCracker doc wl verify probe mode cs sched outs pws = Except.error e := by
  by_cases h1 : doc.present = false
  · exact ⟨"Document not found", by simp [runCracker, validateInputs, h1]⟩
  · by_cases h2 : wl.present = false
    · exact ⟨"Wordlist not found", by simp [runCracker, validateInputs, h1, h2]⟩
    · by_cases h3 : doc.size = 0
      · exact ⟨"Document is empty", by simp [runCracker, validateInputs, h1, h2, h3]⟩
      · have h4 : wl.size = 0 := by tauto
        exact ⟨"Wordlist is empty",
          by simp [runCracker, validateInputs, h1, h2, h3, h4]⟩

/-- Witness for `setup_validation_fatal`: an empty document file. -/
theorem setup_validation_fatal_witness :
    ∃ e, runCracker { present := true, size := 0 } { present := true, size := 9 }
      true probeNever CrackingMode.single 5 [] [] ["a"] = Except.error e :=
  setup_validation_fatal { present := true, size := 0 } { present := true, size := 9 }
    true probeNever CrackingMode.single 5 [] [] ["a"] (by simp)

/-- C10: the boolean outcome of the four-iteration encoding loop of
`_try_decrypt` equals that of a single-iteration probe (the `encoding` value
is never passed to `load_key` or `decrypt`, so all four calls are identical),
while a faulting candidate appends one error entry per iteration — four
entries carrying the same probe message, differing only in the encoding
label — to `stats.errors`. -/
theorem encoding_loop_single_iteration (verify : Bool) (probe : String → ProbeResult)
    (pw m : String) :
    (tryDecrypt verify probe pw).1 = (singleIteration verify probe pw).1 ∧
    (probe pw = ProbeResult.fault m →
      (tryDecrypt verify probe pw).2 = encodings.map (fun enc => errMsg enc m)) := by
  constructor
  · unfold tryDecrypt singleIteration encodings
    cases h : probe pw with
    | success size =>
      by_cases hv : verify = true ∧ 0 < size <;> simp [tryDecryptIter, h, hv]
    | invalidKey => simp [tryDecryptIter, h]
    | fault m2 => simp [tryDecryptIter, h]
  · intro h
    exact (tryDecrypt_fault verify probe pw m h).2

/-- Witness for `encoding_loop_single_iteration` on an always-faulting
probe. -/
theorem encoding_loop_single_iteration_witness :
    (tryDecrypt true probeFaulty "x").1 = (singleIteration true probeFaulty "x").1 ∧
    (tryDecrypt true probeFaulty "x").2 = encodings.map (fun enc => errMsg enc "boom") :=
  ⟨(encoding_loop_single_iteration true probeFaulty "x" "boom").1,
   (encoding_loop_single_iteration true probeFaulty "x" "boom").2 rfl⟩

/-- C3: the hybrid strategy is the composition the spec describes — run
sequential on the first-100 prefix, return its password if it found one,
otherwise run parallel on the remainder — provided every candidate is a
non-empty string (the spec's data model; `_load_passwords` filters out empty
lines, and Python's `if result:` at line 213 distinguishes `None`/`""` from
a non-empty password).  In particular, when the correct password lies inside
the prefix, hybrid equals sequential on the prefix alone. -/
theorem hybrid_is_composition (verify : Bool) (probe : String → ProbeResult)
    (cs : Nat) (sched : List Nat) (outs : List (Option String))
    (pws : List String) (st : Stats)
    (hne : ∀ p ∈ pws, p ≠ "") :
    crackHybrid verify probe cs sched outs pws st
      = hybridSpec verify probe cs sched outs pws st ∧
    ((∃ p ∈ pws.take 100, (tryDecrypt verify probe p).1 = true) →
      crackHybrid verify probe cs sched outs pws st
        = crackSingle verify probe (pws.take 100) st) := by
  have key : pyTruthy (crackSingle verify probe (pws.take 100) st).1
      = (crackSingle verify probe (pws.take 100) st).1.isSome := by
    cases hr : (crackSingle verify probe (pws.take 100) st).1 with
    | none => rfl
    | some p =>
      have hmem := worker_password_mem (tryDecrypt verify probe) (pws.take 100) st p hr
      have hp : p ≠ "" := hne p (List.take_subset 100 pws hmem.1)
      have hpe : p.isEmpty = false := by
        rw [Bool.eq_false_iff]
        intro hcontra
        exact hp ((String.isEmpty_iff p).mp hcontra)
      simp [pyTruthy, hpe]
  constructor
  · simp only [crackHybrid, hybridSpec]
    rw [key]
  · intro hex
    have hsome : (crackSingle verify probe (pws.take 100) st).1.isSome = true :=
      worker_finds (tryDecrypt verify probe) (pws.take 100) st hex
    simp only [crackHybrid]
    rw [key, hsome]
    simp

/-- Witness for `hybrid_is_composition` with the match inside the prefix. -/
theorem hybrid_is_composition_witness :
    crackHybrid true probeSecret 2 [] [] ["aaa", "secret"] stats0
      = hybridSpec true probeSecret 2 [] [] ["aaa", "secret"] stats0 ∧
    crackHybrid true probeSecret 2 [] [] ["aaa", "secret"] stats0
      = crackSingle true probeSecret (["aaa", "secret"].take 100) stats0 :=
  ⟨(hybrid_is_composition true probeSecret 2 [] [] ["aaa", "secret"] stats0
      (by decide)).1,
   (hybrid_is_composition true probeSecret 2 [] [] ["aaa", "secret"] stats0
      (by decide)).2 (by decide)⟩

/-- C5: on a candidate sequence with no matching password, with no timeout
(every future returns in time) and no worker-level fault, every strategy
returns `none`, counts exactly `pws.length` attempts, and records only
per-candidate probe-error entries. -/
theorem no_match_exhausts (verify : Bool) (probe : String → ProbeResult) (cs : Nat)
    (schedM schedH : List Nat) (outsM outsH : List (Option String)) (pws : List String)
    (hne : pws ≠ [])
    (hno : ∀ pw ∈ pws, (tryDecrypt verify probe pw).1 = false)
    (houtsM : ∀ o ∈ outsM, o = none) (houtsH : ∀ o ∈ outsH, o = none)
    (hdoneM : SchedCompletes (tryDecrypt verify probe) (cs + 1) schedM pws)
    (hdoneH : SchedCompletes (tryDecrypt verify probe) (cs + 1) schedH (pws.drop 100)) :
    ((crack verify probe CrackingMode.single (cs + 1) schedM outsM pws).1 = none ∧
     (crack verify probe CrackingMode.single (cs + 1) schedM outsM pws).2.attempts
       = pws.length ∧
     (∀ e ∈ (crack verify probe CrackingMode.single (cs + 1) schedM outsM pws).2.errors,
       ∃ pw ∈ pws, e ∈ (tryDecrypt verify probe pw).2)) ∧
    ((crack verify probe CrackingMode.multi (cs + 1) schedM outsM pws).1 = none ∧
     (crack verify probe CrackingMode.multi (cs + 1) schedM outsM pws).2.attempts
       = pws.length ∧
     (∀ e ∈ (crack verify probe CrackingMode.multi (cs + 1) schedM outsM pws).2.errors,
       ∃ pw ∈ pws, e ∈ (tryDecrypt verify probe pw).2)) ∧
    ((crack verify probe CrackingMode.hybrid (cs + 1) schedH outsH pws).1 = none ∧
     (crack verify probe CrackingMode.hybrid (cs + 1) schedH outsH pws).2.attempts
       = pws.length ∧
     (∀ e ∈ (crack verify probe CrackingMode.hybrid (cs + 1) schedH outsH pws).2.errors,
       ∃ pw ∈ pws, e ∈ (tryDecrypt verify probe pw).2)) := by
  have hemp : pws.isEmpty = false := by
    cases pws with
    | nil => exact absurd rfl hne
    | cons a l => rfl
  have hlen100 : (pws.take 100).length + (pws.drop 100).length = pws.length := by
    have hsplit := congrArg List.length (List.take_append_drop 100 pws)
    rw [List.length_append] at hsplit
    exact hsplit
  refine ⟨?_, ?_, ?_⟩
  · simp only [crack, hemp, Bool.false_eq_true, if_false]
    have h1 : crackSingle verify probe pws stats0 =
        (none, { attempts := pws.length,
                 errors := (pws.map (fun pw => (tryDecrypt verify probe pw).2)).flatten }) := by
      simp only [crackSingle]
      rw [worker_noMatch (tryDecrypt verify probe) pws
        { found := false, password := none } stats0 rfl hno]
      simp [stats0]
    rw [h1]
    refine ⟨rfl, rfl, ?_⟩
    intro e he
    obtain ⟨es, hes, hee⟩ := List.mem_flatten.mp he
    obtain ⟨pw, hpw, rfl⟩ := List.mem_map.mp hes
    exact ⟨pw, hpw, hee⟩
  · simp only [crack, hemp, Bool.false_eq_true, if_false]
    obtain ⟨m1, m2, m3⟩ := crackMulti_noMatch verify probe cs schedM outsM pws stats0
      hno houtsM hdoneM
    refine ⟨m1, ?_, ?_⟩
    · rw [m2]
      simp [stats0]
    · intro e he
      rcases m3 e he with he2 | he2
      · simp [stats0] at he2
      · exact he2
  · simp only [crack, hemp, Bool.false_eq_true, if_false]
    have hno100 : ∀ pw ∈ pws.take 100, (tryDecrypt verify probe pw).1 = false :=
      fun pw hpw => hno pw (List.take_subset 100 pws hpw)
    have hnoDrop : ∀ pw ∈ pws.drop 100, (tryDecrypt verify probe pw).1 = false :=
      fun pw hpw => hno pw (List.drop_subset 100 pws hpw)
    have h1 : crackSingle verify probe (pws.take 100) stats0 =
        (none, { attempts := (pws.take 100).length,
                 errors := ((pws.take 100).map
                   (fun pw => (tryDecrypt verify probe pw).2)).flatten }) := by
      simp only [crackSingle]
      rw [worker_noMatch (tryDecrypt verify probe) (pws.take 100)
        { found := false, password := none } stats0 rfl hno100]
      simp [stats0]
    simp only [crackHybrid]
    rw [h1]
    simp only [pyTruthy, Bool.false_eq_true, if_false]
    obtain ⟨m1, m2, m3⟩ := crackMulti_noMatch verify probe cs schedH outsH (pws.drop 100)
      { attempts := (pws.take 100).length,
        errors := ((pws.take 100).map (fun pw => (tryDecrypt verify probe pw).2)).flatten }
      hnoDrop houtsH hdoneH
    refine ⟨m1, ?_, ?_⟩
    · rw [m2]
      simp only
      omega
    · intro e he
      rcases m3 e he with he2 | he2
      · simp only at he2
        obtain ⟨es, hes, hee⟩ := List.mem_flatten.mp he2
        obtain ⟨pw, hpw, rfl⟩ := List.mem_map.mp hes
        exact ⟨pw, List.take_subset 100 pws hpw, hee⟩
      · obtain ⟨pw, hpw, hee⟩ := he2
        exact ⟨pw, List.drop_subset 100 pws hpw, hee⟩

/-- Witness for `no_match_exhausts`: three candidates, chunk size 2, a
schedule that drives both workers to completion, every future in time. -/
theorem no_match_exhausts_witness :
    (crack true probeNever CrackingMode.single 2 [0, 0, 0, 0, 0, 1, 1, 1] []
      ["a", "b", "c"]).1 = none ∧
    (crack true probeNever CrackingMode.single 2 [0, 0, 0, 0, 0, 1, 1, 1] []
      ["a", "b", "c"]).2.attempts = 3 ∧
    (crack true probeNever CrackingMode.multi 2 [0, 0, 0, 0, 0, 1, 1, 1] []
      ["a", "b", "c"]).1 = none ∧
    (crack true probeNever CrackingMode.multi 2 [0, 0, 0, 0, 0, 1, 1, 1] []
      ["a", "b", "c"]).2.attempts = 3 ∧
    (crack true probeNever CrackingMode.hybrid 2 [] [] ["a", "b", "c"]).1 = none ∧
    (crack true probeNever CrackingMode.hybrid 2 [] [] ["a", "b", "c"]).2.attempts = 3 := by
  have h := no_match_exhausts true probeNever 1 [0, 0, 0, 0, 0, 1, 1, 1] [] [] []
    ["a", "b", "c"] (by decide) (by decide) (by decide) (by decide)
    (by decide) (by decide)
  exact ⟨h.1.1, h.1.2.1, h.2.1.1, h.2.1.2.1, h.2.2.1, h.2.2.2.1⟩

/-- C7: in parallel mode the wait budget of line 201 is `timeout` divided by
the number of futures, identical for every unit and summing back to the whole
budget; each future that raises instead of returning in time contributes
exactly one entry appended to `stats.errors` (line 204), in order; and the
run returns `none` unless some worker had set the shared flag. -/
theorem timeout_even_split (timeout cs : Nat) (verify : Bool)
    (probe : String → ProbeResult) (sched : List Nat) (outs : List (Option String))
    (pws : List String) (st : Stats)
    (hne : pws ≠ [])
    (hlen : outs.length = (chunkList (cs + 1) pws).length) :
    ((chunkList (cs + 1) pws).length : ℚ)
        * futureWaitShare timeout (chunkList (cs + 1) pws).length = (timeout : ℚ) ∧
    (crackMulti verify probe (cs + 1) sched outs pws st).2.errors =
      (runMulti (tryDecrypt verify probe) (initMulti (chunkList (cs + 1) pws) st)
        sched).stats.errors ++ outs.filterMap id ∧
    ((crackMulti verify probe (cs + 1) sched outs pws st).1 = none ∨
      (runMulti (tryDecrypt verify probe) (initMulti (chunkList (cs + 1) pws) st)
        sched).shared.found = true) := by
  refine ⟨?_, awaitFutures_errors outs _, ?_⟩
  · have hpos : 0 < (chunkList (cs + 1) pws).length := by
      cases pws with
      | nil => exact absurd rfl hne
      | cons pw rest => exact chunkList_length_pos cs pw rest
    have hnz : ((chunkList (cs + 1) pws).length : ℚ) ≠ 0 :=
      Nat.cast_ne_zero.mpr (Nat.pos_iff_ne_zero.mp hpos)
    rw [futureWaitShare, mul_comm]
    exact div_mul_cancel₀ _ hnz
  · have hok := runMulti_sharedOk (tryDecrypt verify probe) sched
      (initMulti (chunkList (cs + 1) pws) st) rfl
    rw [SharedOk] at hok
    cases hfd : (runMulti (tryDecrypt verify probe)
        (initMulti (chunkList (cs + 1) pws) st) sched).shared.found with
    | false =>
      left
      rw [hfd] at hok
      have hnone : (runMulti (tryDecrypt verify probe)
          (initMulti (chunkList (cs + 1) pws) st) sched).shared.password = none :=
        Option.not_isSome_iff_eq_none.mp (by simp [hok])
      exact hnone
    | true => right; rfl

/-- Witness for `timeout_even_split`: two chunks, the second future timing
out. -/
theorem timeout_even_split_witness :
    ((chunkList 2 ["a", "b", "c"]).length : ℚ)
        * futureWaitShare 10 (chunkList 2 ["a", "b", "c"]).length = (10 : ℚ) ∧
    (crackMulti true probeNever 2 [] [none, some "timed out"] ["a", "b", "c"]
      stats0).2.errors =
      (runMulti (tryDecrypt true probeNever) (initMulti (chunkList 2 ["a", "b", "c"])
        stats0) []).stats.errors ++ [none, some "timed out"].filterMap id ∧
    ((crackMulti true probeNever 2 [] [none, some "timed out"] ["a", "b", "c"]
      stats0).1 = none ∨
      (runMulti (tryDecrypt true probeNever) (initMulti (chunkList 2 ["a", "b", "c"])
        stats0) []).shared.found = true) :=
  timeout_even_split 10 1 true probeNever [] [none, some "timed out"]
    ["a", "b", "c"] stats0 (by decide) (by decide)

/-- C8: once past setup validation `crack` never surfaces a failure.  A
probe fault never changes the search result (masking every fault as a plain
non-match yields the same result in every mode, so the faulting candidate is
treated as non-matching and the run continues), the faulting probe reports
no-match while recording a non-empty error description, and even the one
internal raise (`ValueError` on an empty candidate list, lines 142-143) is
caught by lines 160-163 and still yields a complete result/statistics pair. -/
theorem crack_recovers_probe_faults (verify : Bool) (probe : String → ProbeResult)
    (mode : CrackingMode) (cs : Nat) (sched : List Nat) (outs : List (Option String))
    (pws : List String) (pw m : String) (h : probe pw = ProbeResult.fault m) :
    (crack verify probe mode cs sched outs pws).1 =
      (crack verify (maskFaults probe) mode cs sched outs pws).1 ∧
    (tryDecrypt verify probe pw).1 = false ∧
    (tryDecrypt verify probe pw).2 ≠ [] ∧
    crack verify probe mode cs sched outs [] =
      (none, { attempts := 0, errors := ["No valid passwords in wordlist"] }) := by
  refine ⟨crack_result_mask verify probe mode cs sched outs pws, ?_, ?_, rfl⟩
  · exact (tryDecrypt_fault verify probe pw m h).1
  · rw [(tryDecrypt_fault verify probe pw m h).2]
    simp [encodings]

/-- Witness for `crack_recovers_probe_faults` on an always-faulting probe. -/
theorem crack_recovers_probe_faults_witness :
    (crack true probeFaulty CrackingMode.single 5 [] [] ["x", "y"]).1 =
      (crack true (maskFaults probeFaulty) CrackingMode.single 5 [] [] ["x", "y"]).1 ∧
    (tryDecrypt true probeFaulty "x").1 = false ∧
    (tryDecrypt true probeFaulty "x").2 ≠ [] ∧
    crack true probeFaulty CrackingMode.single 5 [] [] [] =
      (none, { attempts := 0, errors := ["No valid passwords in wordlist"] }) :=
  crack_recovers_probe_faults true probeFaulty CrackingMode.single 5 [] []
    ["x", "y"] "x" "boom" rfl
